import Mathlib

/-!
Formal model of the png2t frame pipeline and playback engine.

The definitions below are a shallow embedding of `src/helpers.rs` and
`src/main.rs` of the png2t repository.  Pure computations of the Rust
code become Lean functions; the stateful playback loop becomes explicit
state passing over an abstract terminal environment; Rust `Result` /
panics / the potentially unbounded playback loop are represented by the
four-way `Outcome` type.  Machine floats (`f32`/`f64`) are modelled as
exact rationals; every place where this abstraction is used is marked
with a comment arguing that the exact float rounding cannot change the
stated results.
-/

namespace Png2t

/-- One RGBA pixel: four 8-bit channels, modelled as naturals (< 256).
Mirrors `image::Rgba<u8>`; channel 3 (`a`) is the alpha channel. -/
structure Pixel where
  r : ℕ
  g : ℕ
  b : ℕ
  a : ℕ
  deriving DecidableEq

/-- A decoded RGBA bitmap (`type Image = ImageBuffer<Rgba<u8>, Vec<u8>>`).
The pixel store is modelled as a total function; only coordinates with
`x < width` and `y < height` are meaningful, matching
`ImageBuffer::get_pixel` which panics out of bounds. -/
structure Image where
  width : ℕ
  height : ℕ
  pix : ℕ → ℕ → Pixel

instance : Inhabited Image := ⟨⟨0, 0, fun _ _ => ⟨0, 0, 0, 0⟩⟩⟩

/-- The command line configuration (`struct Args` in `src/main.rs`).
`scale` is an `Option<f32>` in the source; it is modelled as an exact
rational. -/
structure Args where
  file : String
  invert : Bool
  flip_h : Bool
  flip_v : Bool
  size : Option String
  scale : Option ℚ
  preserve_dims : Bool
  loop_video : Bool
  mute : Bool

/-- Result of running a piece of the Rust code:
`ok` / `err` mirror `Result<α, String>`, `panicked` models a Rust panic
(`unwrap()` on `None`/`Err`, or an out-of-bounds index), and `timeout`
models exhaustion of the explicit fuel that bounds the otherwise
unbounded playback loop of `Media::render`. -/
inductive Outcome (α : Type) where
  | ok (a : α)
  | err (e : String)
  | panicked
  | timeout
  deriving DecidableEq

/-- Value of a digit string read in base 10 (used by the models of
`str::parse::<u32>` and `str::parse::<f32>`). -/
def digitsToNat (cs : List Char) : ℕ :=
  cs.foldl (fun n c => 10 * n + (c.toNat - 48)) 0

/-- Model of Rust `str::parse::<u32>`: an optional leading `+`, then one
or more ASCII digits whose value fits in 32 bits; anything else fails.
`transform` uses it via `str::parse(c).unwrap_or(0)`. -/
def parseU32 (s : String) : Option ℕ :=
  let cs := match s.toList with
    | '+' :: rest => rest
    | cs => cs
  if cs ≠ [] ∧ cs.all Char.isDigit ∧ digitsToNat cs < 2 ^ 32 then some (digitsToNat cs)
  else none

/-- The exact error string built at `helpers.rs:175-177`. -/
def sizeErrMsg : String :=
  "Invalid coordinates supplied to --size tag: must be in format NUMxNUM"

/-- Model of Rust `str::split(sep)` for a one-character separator, on
character lists: `"" ↦ [""]`, a separator at either end produces an
empty component (- exactly `str::split`'s semantics). -/
def splitOnChar (sep : Char) : List Char → List (List Char)
  | [] => [[]]
  | c :: cs =>
    let r := splitOnChar sep cs
    if c = sep then [] :: r
    else
      match r with
      | [] => [[c]]
      | h :: t => (c :: h) :: t

/-- Default thumbnail geometry (`helpers.rs:184-187`): the longer side
becomes 64, the shorter side becomes `64 * shorter / longer`.
The source computes `(64f64 * (short as f64 / long as f64)) as u32`.
For `u32` inputs this equals the rational floor `64 * short / long`:
the `f64` quotient `short/long` carries a relative error below `2^-52`,
while the distance from `short/long` to the nearest `k/64` that is not
hit exactly is at least `1/(64*long) ≥ 2^-38`; and whenever
`short/long = k/64` exactly, `k/64` is representable so the quotient is
exact.  Hence the float truncation and the natural-number division
agree, and we model the computation with `/` on `ℕ`. -/
def defaultDims (w h : ℕ) : ℕ × ℕ :=
  if h < w then (64, 64 * h / w) else (64 * w / h, 64)

/-- Saturating cast `f32 → u32` applied to an exact rational
(truncation toward zero, negatives clamp to 0, large values clamp to
`u32::MAX`). -/
def ratToU32 (q : ℚ) : ℕ :=
  min (Int.toNat ⌊q⌋) (2 ^ 32 - 1)

/-- The `--scale` step of `Media::transform` (`helpers.rs:190-193`):
`nwidth = (nwidth as f32 * scale) as u32` and likewise for the height,
modelled with exact rational arithmetic. -/
def applyScale (cfg : Args) (d : ℕ × ℕ) : ℕ × ℕ :=
  match cfg.scale with
  | some sc => (ratToU32 ((d.1 : ℚ) * sc), ratToU32 ((d.2 : ℚ) * sc))
  | none => d

/-- The target-geometry computation of `Media::transform`
(`helpers.rs:172-188`), from the first frame's dimensions `w0 × h0`:
an explicit `--size` string is split on `'x'` and every component parsed
with `str::parse::<u32>(..).unwrap_or(0)`; a zero in the component list
is the size-format error.  `coords[0]`/`coords[1]` are hard indexes in
the source, so a component list shorter than 2 panics. -/
def computeDims (cfg : Args) (w0 h0 : ℕ) : Outcome (ℕ × ℕ) :=
  match cfg.size with
  | some s =>
    let coords := (splitOnChar 'x' s.toList).map (fun c => (parseU32 (String.mk c)).getD 0)
    if 0 ∈ coords then Outcome.err sizeErrMsg
    else
      match coords[0]?, coords[1]? with
      | some w, some h => Outcome.ok (w, h)
      | _, _ => Outcome.panicked
  | none =>
    if cfg.preserve_dims then Outcome.ok (w0, h0)
    else Outcome.ok (defaultDims w0 h0)

/-- `--invert` on one pixel (`helpers.rs:199-203`): the three colour
channels are complemented against `u8::MAX`, alpha untouched. -/
def invertPixel (p : Pixel) : Pixel :=
  ⟨255 - p.r, 255 - p.g, 255 - p.b, p.a⟩

/-- `--invert` applied to a whole frame. -/
def invertImage (img : Image) : Image :=
  ⟨img.width, img.height, fun x y => invertPixel (img.pix x y)⟩

/-- `imageops::flip_horizontal_in_place`. -/
def flipHImage (img : Image) : Image :=
  ⟨img.width, img.height, fun x y => img.pix (img.width - 1 - x) y⟩

/-- `imageops::flip_vertical_in_place`. -/
def flipVImage (img : Image) : Image :=
  ⟨img.width, img.height, fun x y => img.pix x (img.height - 1 - y)⟩

/-- `imageops::resize(frame, nw, nh, FilterType::Nearest)`.  The output
dimensions are exactly `nw × nh`; the nearest-neighbour sample index
arithmetic of the `image` crate (float edge handling) is abstracted to
rational floor sampling — no claim of this development inspects the
sampled pixel values of a resized frame, only the dimensions. -/
def resizeNearest (nw nh : ℕ) (img : Image) : Image :=
  ⟨nw, nh, fun x y => img.pix (x * img.width / nw) (y * img.height / nh)⟩

/-- The per-frame mutation of `Media::transform` (`helpers.rs:195-213`),
applied in source order: resize, then invert, then horizontal flip,
then vertical flip. -/
def mutateFrame (cfg : Args) (nw nh : ℕ) (img : Image) : Image :=
  let r1 := resizeNearest nw nh img
  let r2 := if cfg.invert then invertImage r1 else r1
  let r3 := if cfg.flip_h then flipHImage r2 else r2
  if cfg.flip_v then flipVImage r3 else r3

/-- Model of the unchecked indexing `self.frames[0]`
(`helpers.rs:168` in `transform`, `helpers.rs:226` in `render`): on an
empty frame sequence the Rust code panics; there is no error branch. -/
def firstFrame (frames : List Image) : Outcome Image :=
  match frames[0]? with
  | none => Outcome.panicked
  | some f => Outcome.ok f

/-- `Media::transform` (`helpers.rs:167-216`): reads the first frame's
dimensions (panicking on an empty sequence), computes the target
geometry once, applies the optional scale factor, then mutates every
frame.  The second component is the frame store after the call: on the
error and panic paths the loop is never reached, so the frames are
returned unchanged. -/
def transform (cfg : Args) (frames : List Image) : Outcome Unit × List Image :=
  match frames[0]? with
  | none => (Outcome.panicked, frames)
  | some f0 =>
    match computeDims cfg f0.width f0.height with
    | Outcome.ok d =>
      let d2 := applyScale cfg d
      (Outcome.ok (), frames.map (mutateFrame cfg d2.1 d2.2))
    | Outcome.err e => (Outcome.err e, frames)
    | Outcome.panicked => (Outcome.panicked, frames)
    | Outcome.timeout => (Outcome.timeout, frames)

/-- The name interpolated into the decode-failure message of
`Media::load_frames` (`helpers.rs:138-151`): the source tests
`self.frames.len() == 1`, where `self.frames` holds only the frames
decoded so far. -/
def decodeName (file : String) (idx framesLen : ℕ) : String :=
  if framesLen = 1 then file
  else "frame " ++ toString idx ++ "/" ++ toString framesLen ++ " of " ++ file

/-- Loop body of `Media::load_frames` (`helpers.rs:127-156`) over the
per-file decode results (`Except.error e` models
`image::io::Reader::decode` failing with error `e`).  `acc` is
`self.frames` built so far, `idx` the `enumerate` index.  The distinct
reader-open failure path (`helpers.rs:129-135`, a different message
emitted before any decode is attempted) is outside the decode-naming
claim and not modelled. -/
def loadGo (file : String) : List Image → ℕ → List (Except String Image) → Outcome (List Image)
  | acc, _, [] => Outcome.ok acc.reverse
  | acc, idx, Except.ok img :: rest => loadGo file (img :: acc) (idx + 1) rest
  | acc, idx, Except.error e :: _ =>
    Outcome.err ("Unable to decode " ++ decodeName file idx acc.length ++ ": " ++ e)

/-- `Media::load_frames`, starting from the empty frame store. -/
def loadFrames (file : String) (decs : List (Except String Image)) : Outcome (List Image) :=
  loadGo file [] 0 decs

/-- Longest prefix of ASCII digits. -/
def takeDigits (cs : List Char) : List Char := cs.takeWhile Char.isDigit

/-- Rest after the longest prefix of ASCII digits. -/
def dropDigits (cs : List Char) : List Char := cs.dropWhile Char.isDigit

/-- Greedy match of the capture group `(\d*\.?\d*)` of the framerate
regex at the current position: maximal digit run, an optional single
dot, a second maximal digit run.  Returns the consumed characters and
the remainder.  For this pattern greedy matching without backtracking
is exact regex semantics: every shorter candidate at the same start
position is a proper prefix of the greedy one, so the character that
would have to begin `" fps"` after it is a digit or a dot — never a
space. -/
def matchNum (cs : List Char) : List Char × List Char :=
  let d1 := takeDigits cs
  match dropDigits cs with
  | '.' :: r2 => (d1 ++ '.' :: takeDigits r2, dropDigits r2)
  | r1 => (d1, r1)

/-- Does the remainder begin with the literal `" fps"`? -/
def isFpsTail (cs : List Char) : Bool :=
  match cs with
  | ' ' :: 'f' :: 'p' :: 's' :: _ => true
  | _ => false

/-- Leftmost match of `(\d*\.?\d*) fps` over the character list:
try every start position from the left, returning the capture group of
the first position where the pattern matches. -/
def fpsCaptureAux : List Char → Option (List Char)
  | [] => none
  | c :: cs =>
    let m := matchNum (c :: cs)
    if isFpsTail m.2 then some m.1 else fpsCaptureAux cs

/-- Model of `RE.captures(text)` for `RE = (\d*\.?\d*) fps`
(`helpers.rs:243-245`): `none` when the regex matches nowhere; on a
match, the inner option is capture group 1.  Group 1 is outside any
alternation or repetition, so it participates in every match — the
inner option is `some` by construction, which makes the
`else`-branch of `helpers.rs:263-265` dead code. -/
def fpsCaptures (s : String) : Option (Option String) :=
  (fpsCaptureAux s.toList).map (fun g => some (String.mk g))

/-- The error string of `helpers.rs:264`. -/
def framerateErr : String := "Could not determine framerate of video!"

/-- Model of `str::parse::<f32>` restricted to the shape a capture of
`(\d*\.?\d*)` can have: digits, an optional dot, digits.  Parsing fails
exactly when there is no digit at all (`""` or `"."`).  The parsed
value is modelled as the exact rational; `f32` rounding is abstracted
away (every downstream use is the millisecond truncation of
`1000/fps`, and the concrete values used in the theorems below are
several orders of magnitude farther from a truncation boundary than
the `f32` representation error). -/
def parseFpsDigits (s : String) : Option (ℕ × ℕ × ℕ) :=
  let cs := s.toList
  let ip := takeDigits cs
  match dropDigits cs with
  | [] => if ip = [] then none else some (digitsToNat ip, 0, 0)
  | '.' :: r2 =>
    let fp := takeDigits r2
    if dropDigits r2 ≠ [] then none
    else if ip = [] ∧ fp = [] then none
    else some (digitsToNat ip, digitsToNat fp, fp.length)
  | _ => none

/-- The rational value `intPart + fracPart / 10 ^ fracLen` denoted by a
parsed decimal. -/
def parseFpsRat (s : String) : Option ℚ :=
  (parseFpsDigits s).map (fun t => (t.1 : ℚ) + (t.2.1 : ℚ) / (10 : ℚ) ^ t.2.2)

/-- The framerate extraction of `Media::render` (`helpers.rs:242-265`):
`captures(..).unwrap()` panics when the regex matches nowhere;
otherwise group 1 is fed to `str::parse(..).unwrap()`, which panics on
an empty or all-dot capture; the descriptive error of `helpers.rs:264`
would be returned only if group 1 did not participate in a match,
which never happens for this pattern. -/
def rateResolve (metadata : String) : Outcome ℚ :=
  match fpsCaptures metadata with
  | none => Outcome.panicked
  | some none => Outcome.err framerateErr
  | some (some g) =>
    match parseFpsRat g with
    | none => Outcome.panicked
    | some fps => Outcome.ok fps

/-- The inter-frame delay of `helpers.rs:268`:
`Duration::from_millis((1000.0 / fps) as u64)` — float division, then a
saturating truncating cast to `u64` (for `fps = 0` the quotient is
`+inf`, saturating to `u64::MAX`). -/
def delayMs (fps : ℚ) : ℕ :=
  if fps = 0 then 2 ^ 64 - 1
  else min (Int.toNat ⌊(1000 / fps : ℚ)⌋) (2 ^ 64 - 1)

/-- 24-bit truecolor foreground escape `\x1b[38;2;r;g;bm`. -/
def fgCode (p : Pixel) : String :=
  "\x1b[38;2;" ++ toString p.r ++ ";" ++ toString p.g ++ ";" ++ toString p.b ++ "m"

/-- 24-bit truecolor background escape `\x1b[48;2;r;g;bm`. -/
def bgCode (p : Pixel) : String :=
  "\x1b[48;2;" ++ toString p.r ++ ";" ++ toString p.g ++ ";" ++ toString p.b ++ "m"

/-- The SGR reset escape `\x1b[0m`. -/
def resetCode : String := "\x1b[0m"

/-- The per-cell output of `Media::display_frame` (`helpers.rs:313-324`)
for the two stacked pixels of one character cell, exactly as printed by
the four `print!` arms of the source. -/
def renderCell (upper lower : Pixel) : String :=
  if upper.a ≠ 0 ∧ lower.a ≠ 0 then
    bgCode upper ++ fgCode lower ++ "▄" ++ resetCode
  else if upper.a = 0 ∧ lower.a = 0 then " "
  else if upper.a ≠ 0 ∧ lower.a = 0 then
    fgCode upper ++ "▀" ++ resetCode
  else
    fgCode lower ++ "▄" ++ resetCode

/-- The per-cell encoding as the specification's table states it
(spec §4.3): cases on the two alpha values, lower-half block glyph with
foreground = lower colour and background = upper colour when both are
opaque, a bare space when both are transparent, half-block glyph with
only a foreground otherwise; colour escapes are 24-bit truecolor codes
followed by a reset.  This definition follows the spec's words and is
compared with `renderCell`, which follows the source. -/
def specCellTable (upper lower : Pixel) : String :=
  if upper.a ≠ 0 then
    if lower.a ≠ 0 then bgCode upper ++ fgCode lower ++ "▄" ++ resetCode
    else fgCode upper ++ "▀" ++ resetCode
  else
    if lower.a ≠ 0 then fgCode lower ++ "▄" ++ resetCode
    else " "

/-- The `(x, y)` cursor positions visited by the cell loop of
`Media::display_frame` (`helpers.rs:303-338`): the loop runs
`(h / 2) * w` times (the fuel argument), starting from `(0, 0)`; after
a cell at `x = w - 1` the position wraps to `(0, y + 2)`, otherwise
`x` advances by one. -/
def displayCoords (w : ℕ) : ℕ → ℕ → ℕ → List (ℕ × ℕ)
  | 0, _, _ => []
  | Nat.succ n, x, y =>
    (x, y) :: (if x = w - 1 then displayCoords w n 0 (y + 2) else displayCoords w n (x + 1) y)

/-- Every pixel coordinate read by `display_frame` on `img`: each
visited cell `(x, y)` reads the upper pixel `(x, y)` and the lower
pixel `(x, y + 1)`. -/
def frameReads (img : Image) : List (ℕ × ℕ) :=
  (displayCoords img.width (img.height / 2 * img.width) 0 0).flatMap
    (fun p => [(p.1, p.2), (p.1, p.2 + 1)])

/-- Cell loop of `Media::display_frame` with an abstract flush
environment: `flushE i` is the result of the `stdout().flush()` after
the `i`-th cell (`none` = success, `some e` = I/O error `e`).  Returns
the outcome (a flush failure aborts with the message of
`helpers.rs:327`, naming the failing coordinate) and the list of cell
strings printed. -/
def displayGo (img : Image) (flushE : ℕ → Option String) :
    ℕ → ℕ → ℕ → ℕ → Outcome Unit × List String
  | 0, _, _, _ => (Outcome.ok (), [])
  | Nat.succ n, i, x, y =>
    let cell := renderCell (img.pix x y) (img.pix x (y + 1))
    match flushE i with
    | some e =>
      (Outcome.err ("\nFailed to print image at (" ++ toString x ++ ", " ++ toString y
          ++ "): " ++ e), [cell])
    | none =>
      let rest :=
        if x = img.width - 1 then displayGo img flushE n (i + 1) 0 (y + 2)
        else displayGo img flushE n (i + 1) (x + 1) y
      (rest.1, cell :: rest.2)

/-- `Media::display_frame` (`helpers.rs:301-341`). -/
def displayFrame (flushE : ℕ → Option String) (img : Image) : Outcome Unit × List String :=
  displayGo img flushE (img.height / 2 * img.width) 0 0 0

/-- A keyboard event as compared at `helpers.rs:358-361`: a character
key with or without the CONTROL modifier. -/
structure KeyEv where
  code : Char
  ctrl : Bool
  deriving DecidableEq

/-- The cancellation test of `Media::play_video` (`helpers.rs:356-365`):
a polled event (`none` = poll timeout or an event that is not one of
the two listed keys) cancels iff it is plain `q` or CONTROL-`c`. -/
def isCancelEv (e : Option KeyEv) : Bool :=
  e == some { code := 'q', ctrl := false } || e == some { code := 'c', ctrl := true }

/-- Frame loop of `Media::play_video` (`helpers.rs:351-373`):
`disp j` is the outcome of `display_frame` on frame `j`, `inputs j` the
event polled after frame `j`'s delay, `s` the index of the next frame,
`k` the number of frames left.  Each fully displayed frame is recorded
as `(index, delay slept)`; a display failure propagates immediately; a
cancel key returns `Ok(false)`; a completed pass returns
`Ok(loop_video)`.  The environment always yields a poll result: the
panic a failing `poll(..)`/`read(..).unwrap()` would cause is not
modelled. -/
def playGo (disp : ℕ → Outcome Unit) (inputs : ℕ → Option KeyEv) (loopFlag : Bool)
    (delay : ℕ) : ℕ → ℕ → Outcome Bool × List (ℕ × ℕ)
  | _, 0 => (Outcome.ok loopFlag, [])
  | s, Nat.succ k =>
    match disp s with
    | Outcome.ok _ =>
      if isCancelEv (inputs s) then (Outcome.ok false, [(s, delay)])
      else
        let r := playGo disp inputs loopFlag delay (s + 1) k
        (r.1, (s, delay) :: r.2)
    | Outcome.err e => (Outcome.err e, [])
    | Outcome.panicked => (Outcome.panicked, [])
    | Outcome.timeout => (Outcome.timeout, [])

/-- `Media::play_video` over `n` frames, from frame 0. -/
def playVideo (disp : ℕ → Outcome Unit) (inputs : ℕ → Option KeyEv) (loopFlag : Bool)
    (n delay : ℕ) : Outcome Bool × List (ℕ × ℕ) :=
  playGo disp inputs loopFlag delay 0 n

/-- Tag a per-pass trace with its pass number. -/
def tagPass (p : ℕ) (tr : List (ℕ × ℕ)) : List (ℕ × ℕ × ℕ) :=
  tr.map (fun q => (p, q.1, q.2))

/-- The `loop { ... }` of `Media::render` (`helpers.rs:273-287`):
pass `p` displays the frames with flush environment `disp p` and input
stream `inputs p`; `Ok(true)` (`continue`) starts the next pass,
`Ok(false)` (`break`) ends playback, an error propagates out through
`match res?`.  `fuel` bounds the number of passes the model runs;
running out of fuel is the `timeout` outcome (the real loop would still
be running).  Spawning audio (`helpers.rs:275-280`) only keeps a handle
alive and does not affect the frame trace, so it is not modelled. -/
def videoLoop (disp : ℕ → ℕ → Outcome Unit) (inputs : ℕ → ℕ → Option KeyEv)
    (loopFlag : Bool) (n delay : ℕ) : ℕ → ℕ → Outcome Unit × List (ℕ × ℕ × ℕ)
  | 0, _ => (Outcome.timeout, [])
  | Nat.succ fuel, p =>
    match playVideo (disp p) (inputs p) loopFlag n delay with
    | (Outcome.ok true, tr) =>
      let r := videoLoop disp inputs loopFlag n delay fuel (p + 1)
      (r.1, tagPass p tr ++ r.2)
    | (Outcome.ok false, tr) => (Outcome.ok (), tagPass p tr)
    | (Outcome.err e, tr) => (Outcome.err e, tagPass p tr)
    | (Outcome.panicked, tr) => (Outcome.panicked, tagPass p tr)
    | (Outcome.timeout, tr) => (Outcome.timeout, tagPass p tr)

/-- The abstract I/O environment of one `Media::render` call:
the `ffprobe` stderr text the framerate is parsed from, the flush
results (`flush p i j` = result of the `j`-th flush while displaying
frame `i` of pass `p`), and the polled input events. -/
structure Env where
  metadata : String
  flush : ℕ → ℕ → ℕ → Option String
  inputs : ℕ → ℕ → Option KeyEv

/-- The state of `struct Media` relevant to `render`
(`helpers.rs:33-39`): the decoded frames, the configuration, and the
`is_video` / `has_audio` flags set by `load_frames` / `unpack_file`. -/
structure Media where
  frames : List Image
  config : Args
  is_video : Bool
  has_audio : Bool

/-- The common exit bookkeeping of `Media::render`: an `Ok` result
reaches `disable_raw_mode()` at `helpers.rs:293` (raw mode off at
return); every early `return`/`?`-propagation and every panic leaves
raw-input mode enabled.  The second component is the raw-mode flag at
the moment `render` returns. -/
def rawExit (res : Outcome Unit) (tr : List (ℕ × ℕ × ℕ)) :
    Outcome Unit × Bool × List (ℕ × ℕ × ℕ) :=
  match res with
  | Outcome.ok _ => (Outcome.ok (), false, tr)
  | Outcome.err e => (Outcome.err e, true, tr)
  | Outcome.panicked => (Outcome.panicked, true, tr)
  | Outcome.timeout => (Outcome.timeout, true, tr)

/-- The video branch of `Media::render` (`helpers.rs:241-287`): resolve
the framerate (panic or dead error branch per `rateResolve`), compute
the delay once, then run the pass loop. -/
def videoOutcome (env : Env) (m : Media) (fuel : ℕ) : Outcome Unit × List (ℕ × ℕ × ℕ) :=
  match rateResolve env.metadata with
  | Outcome.ok fps =>
    videoLoop (fun p i => (displayFrame (env.flush p i) (m.frames.getD i default)).1)
      env.inputs m.config.loop_video m.frames.length (delayMs fps) fuel 0
  | Outcome.err e => (Outcome.err e, [])
  | Outcome.panicked => (Outcome.panicked, [])
  | Outcome.timeout => (Outcome.timeout, [])

/-- `Media::render` (`helpers.rs:224-295`).  The first frame's height
is read at `helpers.rs:226` before raw mode is enabled, so an empty
frame store panics with raw mode still off.  Afterwards raw mode is on
and only the `Ok` paths (normal still-image completion, a pass loop
ending by cancellation or a disabled loop flag) reach
`disable_raw_mode`.  The result is
(outcome, raw mode at return, playback trace of (pass, frame, delay)).
The cursor bookkeeping (`MoveToColumn`/`MoveUp`/`MoveTo`) and the blank
lines printed to reserve space only move the cursor and are not
modelled. -/
def render (env : Env) (m : Media) (fuel : ℕ) : Outcome Unit × Bool × List (ℕ × ℕ × ℕ) :=
  match m.frames[0]? with
  | none => (Outcome.panicked, false, [])
  | some _ =>
    if m.is_video then
      rawExit (videoOutcome env m fuel).1 (videoOutcome env m fuel).2
    else
      rawExit (displayFrame (env.flush 0 0) (m.frames.getD 0 default)).1 []

/-- A 2×2 partially transparent test frame. -/
def imgA : Image := ⟨2, 2, fun _ _ => ⟨1, 2, 3, 4⟩⟩

/-- A 100×50 opaque test frame. -/
def img100x50 : Image := ⟨100, 50, fun _ _ => ⟨10, 20, 30, 255⟩⟩

/-- Default configuration: no flags, no explicit size, no scale. -/
def cfgDefault : Args := ⟨"a.png", false, false, false, none, none, false, false, false⟩

/-- The default configuration with the malformed `--size 10xA`. -/
def cfgBadSize : Args := ⟨"a.png", false, false, false, some "10xA", none, false, false, false⟩

/-- A still-image session holding the single frame `imgA`. -/
def mediaStill : Media := ⟨[imgA], cfgDefault, false, false⟩

/-- A two-frame video session with the loop flag off. -/
def mediaVid : Media := ⟨[imgA, imgA], cfgDefault, true, false⟩

/-- Benign environment: no flush failures, no input events. -/
def envOk : Env := ⟨"", fun _ _ _ => none, fun _ _ => none⟩

/-- Environment in which every `stdout` flush fails with I/O error
`boom`. -/
def envBoom : Env := ⟨"", fun _ _ _ => some "boom", fun _ _ => none⟩

/-- Environment reporting `1.5 fps` decoder metadata, with no flush
failures and no input events. -/
def env15 : Env := ⟨"1.5 fps", fun _ _ _ => none, fun _ _ => none⟩

/-- Environment reporting `... 29.97 fps ...` decoder metadata, with no
flush failures and no input events. -/
def env2997 : Env := ⟨"... 29.97 fps ...", fun _ _ _ => none, fun _ _ => none⟩

/-- C2: for metadata in which `<number> fps` does not occur, the code
does not return the descriptive framerate error: `captures(..).unwrap()`
at `helpers.rs:248-259` panics when the regex matches nowhere
(`"hello world"`, `""`), and `str::parse(..).unwrap()` at
`helpers.rs:262` panics when `" fps"` occurs with no number before it
(`"xyz fps"`), so the `Err` branch of `helpers.rs:263-265` is never
taken.  This contradicts the claim (and `render`'s own doc comment,
which promises an error result when the FPS cannot be determined). -/
theorem c2_rate_resolver_panics_without_fps :
    rateResolve "hello world" = Outcome.panicked
    ∧ rateResolve "hello world" ≠ Outcome.err framerateErr
    ∧ rateResolve "" = Outcome.panicked
    ∧ rateResolve "xyz fps" = Outcome.panicked := by
  refine ⟨rfl, ?_, rfl, rfl⟩
  decide

/-- C3: for every pixel pair of one character cell, the cell string
printed by `display_frame` is exactly the pure function of the two
alpha values given by the specification's table: both nonzero ⇒
lower-half block with foreground = lower colour and background = upper
colour; both zero ⇒ a bare space; upper only ⇒ upper-half block with
foreground = upper colour; lower only ⇒ lower-half block with
foreground = lower colour; coloured cells use 24-bit truecolor escapes
followed by a reset. -/
theorem c3_cell_encoding_matches_table (upper lower : Pixel) :
    renderCell upper lower = specCellTable upper lower := by
  unfold renderCell specCellTable
  by_cases hu : upper.a = 0 <;> by_cases hl : lower.a = 0 <;> simp [hu, hl]

/-- C9: the decode-failure message of `load_frames` tests
`self.frames.len() == 1` while `self.frames` holds only the frames
decoded so far, so a single-image session failing on its only frame is
reported as `frame 0/0 of <file>` instead of by the bare file name, and
a multi-frame session failing on its second frame is reported by the
bare file name instead of `frame 1/n of <file>` — the opposite of what
the claim states on both kinds of session. -/
theorem c9_decode_error_names_wrong_target :
    loadFrames "img.png" [Except.error "bad"]
      = Outcome.err "Unable to decode frame 0/0 of img.png: bad"
    ∧ loadFrames "vid.mp4" [Except.ok imgA, Except.error "bad", Except.ok imgA]
      = Outcome.err "Unable to decode vid.mp4: bad" :=
  ⟨rfl, rfl⟩

/-- C10: both `transform` (`helpers.rs:168`) and `render`
(`helpers.rs:226`) read frame 0 unconditionally.  On a non-empty
sequence this read is in range (`firstFrame` succeeds), so the
empty-sequence panic cannot be hit; on an empty sequence both
operations panic — no error branch handles the empty case. -/
theorem c10_nonempty_sequence_precondition (cfg : Args) (env : Env) (fuel : ℕ)
    (isv aud : Bool) (f : Image) (fs : List Image) :
    firstFrame (f :: fs) = Outcome.ok f
    ∧ firstFrame ([] : List Image) = Outcome.panicked
    ∧ (transform cfg ([] : List Image)).1 = Outcome.panicked
    ∧ (render env ⟨[], cfg, isv, aud⟩ fuel).1 = Outcome.panicked
    ∧ (∀ e : String, (transform cfg ([] : List Image)).1 ≠ Outcome.err e)
    ∧ (∀ e : String, (render env ⟨[], cfg, isv, aud⟩ fuel).1 ≠ Outcome.err e) := by
  refine ⟨by unfold firstFrame; simp, rfl, rfl, rfl, fun e h => ?_, fun e h => ?_⟩
  · rw [show (transform cfg ([] : List Image)).1 = Outcome.panicked from rfl] at h
    exact Outcome.noConfusion h
  · rw [show (render env ⟨[], cfg, isv, aud⟩ fuel).1 = Outcome.panicked from rfl] at h
    exact Outcome.noConfusion h

/-- C4: with no explicit size and `preserve_dims` unset, the longer
original dimension is scaled to 64 and the shorter to
`64 * shorter / longer` truncated toward zero; a square original
produces the same geometry as the width-is-longer branch (both give
`(64, 64)`); and a 100×50 original transforms to 64×32 frames. -/
theorem c4_default_thumbnail_geometry (w h : ℕ) (hw : 0 < w) (_hh : 0 < h) :
    (h ≤ w → defaultDims w h = (64, 64 * h / w))
    ∧ (w ≤ h → defaultDims w h = (64 * w / h, 64))
    ∧ ((transform cfgDefault [img100x50]).2.map (fun f => (f.width, f.height))
        = [(64, 32)]) := by
  refine ⟨fun hle => ?_, fun hle => ?_, by decide⟩
  · unfold defaultDims
    rcases Nat.lt_or_ge h w with hlt | hge
    · rw [if_pos hlt]
    · have heq : h = w := by omega
      rw [if_neg (by omega)]
      subst heq
      rw [Nat.mul_div_cancel _ hw]
  · unfold defaultDims
    rcases Nat.lt_or_ge h w with hlt | _
    · have heq : h = w := by omega
      rw [if_pos hlt]
      subst heq
      rw [Nat.mul_div_cancel _ hw]
    · rw [if_neg (by omega)]

/-- C4 witness: the theorem applied at the original dimensions 100×50,
whose default geometry is (64, 32). -/
theorem c4_default_thumbnail_geometry_witness :
    defaultDims 100 50 = (64, 32)
    ∧ (transform cfgDefault [img100x50]).2.map (fun f => (f.width, f.height)) = [(64, 32)] := by
  have h := c4_default_thumbnail_geometry 100 50 (by decide) (by decide)
  exact ⟨by rw [h.1 (by decide)], h.2.2⟩

/-- C6 counterexample: on `--size 10xA` the code does return the
size-format error before mutating any frame, but its text is
`"Invalid coordinates supplied to --size tag: must be in format
NUMxNUM"` (`helpers.rs:175-177`) — not the claimed
`"... supplied to --size: ..."`. -/
theorem c6_size_error_message_differs :
    (transform cfgBadSize [imgA]).1 = Outcome.err sizeErrMsg
    ∧ (transform cfgBadSize [imgA]).1
        ≠ Outcome.err "Invalid coordinates supplied to --size: must be in format NUMxNUM"
    ∧ (transform cfgBadSize [imgA]).2 = [imgA] := by
  refine ⟨by decide, by decide, rfl⟩

/-- C6 amended: for every size string with a component that is
non-numeric or zero under `str::parse::<u32>`, `transform` on a
non-empty sequence fails with the error
`"Invalid coordinates supplied to --size tag: must be in format
NUMxNUM"` and mutates no frame. -/
theorem c6_invalid_size_errors_without_mutation (cfg : Args) (f : Image) (fs : List Image)
    (s : String) (hs : cfg.size = some s)
    (hbad : ∃ c ∈ splitOnChar 'x' s.toList,
      parseU32 (String.mk c) = none ∨ parseU32 (String.mk c) = some 0) :
    (transform cfg (f :: fs)).1 = Outcome.err sizeErrMsg
    ∧ (transform cfg (f :: fs)).2 = f :: fs := by
  obtain ⟨c, hc, hzero⟩ := hbad
  have h0 : (0 : ℕ) ∈ (splitOnChar 'x' s.toList).map (fun c => (parseU32 (String.mk c)).getD 0) := by
    refine List.mem_map.2 ⟨c, hc, ?_⟩
    rcases hzero with h | h <;> rw [h] <;> rfl
  have hcd : computeDims cfg f.width f.height = Outcome.err sizeErrMsg := by
    unfold computeDims
    rw [hs]
    exact if_pos h0
  unfold transform
  rw [List.getElem?_cons_zero]
  dsimp only
  rw [hcd]
  exact ⟨rfl, rfl⟩

/-- C6 witness: the amended theorem applied at `--size 10xA` on a
one-frame sequence: component `"A"` parses to `None`. -/
theorem c6_invalid_size_errors_without_mutation_witness :
    (transform cfgBadSize [imgA]).1 = Outcome.err sizeErrMsg
    ∧ (transform cfgBadSize [imgA]).2 = [imgA] :=
  c6_invalid_size_errors_without_mutation cfgBadSize imgA [] "10xA" rfl
    ⟨['A'], by decide, Or.inl (by decide)⟩

/-- Only the `Ok` exit of `Media::render` reaches `disable_raw_mode`. -/
theorem rawExit_ok_raw_off (res : Outcome Unit) (tr : List (ℕ × ℕ × ℕ))
    (h : (rawExit res tr).1 = Outcome.ok ()) : (rawExit res tr).2.1 = false := by
  cases res <;> simp [rawExit] at h ⊢

/-- C1 counterexample: a rendering I/O failure (first flush fails while
displaying a still image) makes `render` return `Err` through the `?`
at `helpers.rs:290` without reaching `disable_raw_mode`
(`helpers.rs:293`): raw-input mode is still enabled at that error
return, so raw mode is not exited on every exit path. -/
theorem c1_raw_mode_left_on_after_io_error :
    (render envBoom mediaStill 1).1 = Outcome.err "\nFailed to print image at (0, 0): boom"
    ∧ (render envBoom mediaStill 1).2.1 = true := by
  refine ⟨by decide, by decide⟩

/-- C1 amended: raw-input mode is exited before `render` returns on
every `Ok` exit path — normal completion of a still image,
loop-disabled completion of a video, and user cancellation — but not
on error returns (a propagated rendering I/O failure, and the
framerate `Err` return at `helpers.rs:264`, leave raw mode enabled). -/
theorem c1_raw_mode_restored_on_ok (env : Env) (m : Media) (fuel : ℕ)
    (hok : (render env m fuel).1 = Outcome.ok ()) :
    (render env m fuel).2.1 = false := by
  unfold render at hok ⊢
  cases h0 : m.frames[0]? with
  | none =>
    simp only [h0] at hok
    exact Outcome.noConfusion hok
  | some f =>
    simp only [h0] at hok ⊢
    cases hv : m.is_video with
    | true =>
      simp [hv] at hok ⊢
      exact rawExit_ok_raw_off _ _ hok
    | false =>
      simp [hv] at hok ⊢
      exact rawExit_ok_raw_off _ _ hok

/-- C1 witness: a still image rendered with no I/O failure returns `Ok`
with raw mode off. -/
theorem c1_raw_mode_restored_on_ok_witness :
    (render envOk mediaStill 1).1 = Outcome.ok ()
    ∧ (render envOk mediaStill 1).2.1 = false :=
  ⟨rfl, c1_raw_mode_restored_on_ok envOk mediaStill 1 rfl⟩

/-- Every delay recorded in a `playGo` trace is the delay argument. -/
theorem playGo_delay_const (disp : ℕ → Outcome Unit) (inputs : ℕ → Option KeyEv)
    (loopFlag : Bool) (delay : ℕ) :
    ∀ (k s : ℕ) (e : ℕ × ℕ), e ∈ (playGo disp inputs loopFlag delay s k).2 → e.2 = delay := by
  intro k
  induction k with
  | zero => intro s e he; simp [playGo] at he
  | succ k ih =>
    intro s e he
    unfold playGo at he
    cases hd : disp s with
    | ok a =>
      rw [hd] at he
      cases hc : isCancelEv (inputs s) with
      | true =>
        simp [hc] at he
        rw [he]
      | false =>
        simp [hc] at he
        rcases he with he | he
        · rw [he]
        · exact ih (s + 1) e he
    | err e2 => rw [hd] at he; simp at he
    | panicked => rw [hd] at he; simp at he
    | timeout => rw [hd] at he; simp at he

/-- Every delay recorded in a `videoLoop` trace is the delay argument. -/
theorem videoLoop_delay_const (disp : ℕ → ℕ → Outcome Unit) (inputs : ℕ → ℕ → Option KeyEv)
    (loopFlag : Bool) (n delay : ℕ) :
    ∀ (fuel p : ℕ) (e : ℕ × ℕ × ℕ),
      e ∈ (videoLoop disp inputs loopFlag n delay fuel p).2 → e.2.2 = delay := by
  intro fuel
  induction fuel with
  | zero => intro p e he; simp [videoLoop] at he
  | succ fuel ih =>
    intro p e he
    unfold videoLoop at he
    have htag : ∀ (q : ℕ) (tr : List (ℕ × ℕ)),
        tr = (playVideo (disp q) (inputs q) loopFlag n delay).2 →
        e ∈ tagPass q tr → e.2.2 = delay := by
      intro q tr htr hmem
      obtain ⟨a, ha, hae⟩ := List.mem_map.1 hmem
      rw [← hae]
      exact playGo_delay_const (disp q) (inputs q) loopFlag delay n 0 a (htr ▸ ha)
    cases hpv : playVideo (disp p) (inputs p) loopFlag n delay with
    | mk r tr =>
      rw [hpv] at he
      have htr : tr = (playVideo (disp p) (inputs p) loopFlag n delay).2 := by rw [hpv]
      cases r with
      | ok b =>
        cases b with
        | true =>
          rcases List.mem_append.1 he with hmem | hmem
          · exact htag p tr htr hmem
          · exact ih (p + 1) e hmem
        | false => exact htag p tr htr he
      | err e2 => exact htag p tr htr he
      | panicked => exact htag p tr htr he
      | timeout => exact htag p tr htr he

/-- `rawExit` returns its trace unchanged. -/
theorem rawExit_trace (res : Outcome Unit) (tr : List (ℕ × ℕ × ℕ)) :
    (rawExit res tr).2.2 = tr := by
  cases res <;> rfl

/-- The Rate Resolver on the spec's example metadata: group `29.97`
parsed as the exact rational `2997/100`. -/
theorem rateResolve_2997 : rateResolve "... 29.97 fps ..." = Outcome.ok (2997 / 100 : ℚ) := by
  have hcap : fpsCaptures "... 29.97 fps ..." = some (some "29.97") := by decide
  have hdig : parseFpsDigits "29.97" = some (29, 97, 2) := by decide
  unfold rateResolve parseFpsRat
  rw [hcap]
  dsimp only
  rw [hdig]
  dsimp only [Option.map]
  have h : ((29 : ℕ) : ℚ) + ((97 : ℕ) : ℚ) / (10 : ℚ) ^ (2 : ℕ) = 2997 / 100 := by
    norm_num
  rw [h]

/-- `delayMs` on the spec's example framerate. -/
theorem delayMs_2997 : delayMs (2997 / 100 : ℚ) = 33 := by
  unfold delayMs
  rw [if_neg (by norm_num)]
  norm_num
  rfl

/-- C5 amended: the inter-frame delay is the *truncation* (saturating
`u64` cast) of `1000 / fps`, not its rounding; it is computed once per
playback session from the resolved fps and this same value is recorded
for every frame of every pass; in particular metadata `... 29.97 fps
...` resolves to fps `2997/100` and yields a delay of 33 ms. -/
theorem c5_delay_truncated (env : Env) (m : Media) (fuel : ℕ) (fps : ℚ)
    (hfps : rateResolve env.metadata = Outcome.ok fps) (hpos : 0 < fps) :
    (∀ e ∈ (render env m fuel).2.2,
        e.2.2 = min (Int.toNat ⌊(1000 / fps : ℚ)⌋) (2 ^ 64 - 1))
    ∧ rateResolve "... 29.97 fps ..." = Outcome.ok (2997 / 100 : ℚ)
    ∧ delayMs (2997 / 100 : ℚ) = 33 := by
  refine ⟨?_, ?_, ?_⟩
  · intro e he
    have hdel : delayMs fps = min (Int.toNat ⌊(1000 / fps : ℚ)⌋) (2 ^ 64 - 1) := by
      unfold delayMs
      rw [if_neg (ne_of_gt hpos)]
    rw [← hdel]
    unfold render at he
    cases h0 : m.frames[0]? with
    | none => simp only [h0] at he; simp at he
    | some f =>
      simp only [h0] at he
      cases hv : m.is_video with
      | false => simp [hv, rawExit_trace] at he
      | true =>
        simp only [hv, if_true] at he
        rw [rawExit_trace] at he
        unfold videoOutcome at he
        rw [hfps] at he
        exact videoLoop_delay_const _ env.inputs m.config.loop_video m.frames.length
          (delayMs fps) fuel 0 e he
  · exact rateResolve_2997
  · exact delayMs_2997

/-- C5 witness: the amended theorem applied at the metadata
`... 29.97 fps ...` (fps `2997/100`), giving a delay of 33 ms. -/
theorem c5_delay_truncated_witness :
    rateResolve "... 29.97 fps ..." = Outcome.ok (2997 / 100 : ℚ)
    ∧ delayMs (2997 / 100 : ℚ) = 33 :=
  ⟨(c5_delay_truncated env2997 mediaVid 2 (2997 / 100) rateResolve_2997 (by norm_num)).2.1,
   (c5_delay_truncated env2997 mediaVid 2 (2997 / 100) rateResolve_2997 (by norm_num)).2.2⟩

/-- C5 counterexample: a session whose metadata reports `1.5 fps` sleeps
666 ms between frames (`(1000.0 / 1.5) as u64` truncates), while the
claimed formula `round(1000 / fps)` gives 667. -/
theorem c5_delay_not_rounded :
    rateResolve "1.5 fps" = Outcome.ok (3 / 2 : ℚ)
    ∧ (render env15 mediaVid 2).2.2 = [(0, 0, 666), (0, 1, 666)]
    ∧ (666 : ℤ) ≠ round ((1000 : ℚ) / (3 / 2)) := by
  have hr : rateResolve "1.5 fps" = Outcome.ok (3 / 2 : ℚ) := by
    have hcap : fpsCaptures "1.5 fps" = some (some "1.5") := by decide
    have hdig : parseFpsDigits "1.5" = some (1, 5, 1) := by decide
    unfold rateResolve parseFpsRat
    rw [hcap]
    dsimp only
    rw [hdig]
    dsimp only [Option.map]
    have : ((1 : ℕ) : ℚ) + ((5 : ℕ) : ℚ) / (10 : ℚ) ^ (1 : ℕ) = 3 / 2 := by
      norm_num
    rw [this]
  have hdel : delayMs (3 / 2 : ℚ) = 666 := by
    unfold delayMs
    rw [if_neg (by norm_num)]
    norm_num
    rfl
  refine ⟨hr, ?_, by norm_num [round_eq]⟩
  show (render env15 mediaVid 2).2.2 = [(0, 0, 666), (0, 1, 666)]
  unfold render videoOutcome
  rw [show env15.metadata = "1.5 fps" from rfl, hr]
  rw [show mediaVid.frames[0]? = some imgA from rfl]
  simp only [if_true, show mediaVid.is_video = true from rfl]
  rw [rawExit_trace, hdel]
  rfl

/-- With no flush failure, the cell loop emits exactly one cell per
iteration. -/
theorem displayGo_length_noFail (img : Image) :
    ∀ (n i x y : ℕ), ((displayGo img (fun _ => none) n i x y).2).length = n := by
  intro n
  induction n with
  | zero => intro i x y; rfl
  | succ n ih =>
    intro i x y
    unfold displayGo
    by_cases hx : x = img.width - 1 <;> simp [hx, ih]

/-- One row of the cell walk: starting at column `x` with `k + 1` cells
left in the row (`x + k + 1 = w`), the walk emits the rest of row `y`
and continues at `(0, y + 2)`. -/
theorem displayCoords_row (w : ℕ) :
    ∀ (k n x y : ℕ), x + k + 1 = w →
      displayCoords w (n + k + 1) x y
        = ((List.range (k + 1)).map (fun j => (x + j, y))) ++ displayCoords w n 0 (y + 2) := by
  intro k
  induction k with
  | zero =>
    intro n x y hx
    simp only [Nat.add_zero]
    rw [displayCoords]
    rw [if_pos (by omega)]
    rw [show List.range 1 = [0] from rfl]
    simp
  | succ k ih =>
    intro n x y hx
    have h1 : n + (k + 1) + 1 = (n + k + 1) + 1 := by omega
    rw [h1]
    rw [displayCoords]
    rw [if_neg (by omega)]
    rw [ih n (x + 1) y (by omega)]
    conv_rhs => rw [List.range_succ_eq_map, List.map_cons, List.map_map]
    have hfun : ((fun j => (x + j, y)) ∘ Nat.succ) = (fun j : ℕ => (x + 1 + j, y)) := by
      funext j
      simp only [Function.comp_apply]
      congr 1
      omega
    rw [hfun]
    simp

/-- The full cell walk of a frame with `m` output rows: row `r` is the
cells `(0, y + 2r) … (w - 1, y + 2r)`. -/
theorem displayCoords_rows (w : ℕ) (hw : 0 < w) :
    ∀ (m y : ℕ), displayCoords w (m * w) 0 y
      = (List.range m).flatMap (fun r => (List.range w).map (fun x => (x, y + 2 * r))) := by
  intro m
  induction m with
  | zero => intro y; simp [displayCoords]
  | succ m ih =>
    intro y
    have h1 : (m + 1) * w = m * w + (w - 1) + 1 := by
      rw [Nat.succ_mul]
      omega
    rw [h1, displayCoords_row w (w - 1) (m * w) 0 y (by omega), ih (y + 2)]
    conv_rhs => rw [List.range_succ_eq_map, List.flatMap_cons, List.flatMap_map]
    congr 1
    · have h2 : w - 1 + 1 = w := by omega
      rw [h2]
      exact List.map_congr_left (fun a _ => by congr 1; omega)
    · congr 1
      funext r
      exact List.map_congr_left (fun a _ => by congr 1; omega)

/-- The pixels read by `display_frame`: for row `r < height / 2` and
column `x < width`, exactly the upper pixel `(x, 2r)` and the lower
pixel `(x, 2r + 1)`. -/
theorem frameReads_eq (img : Image) :
    frameReads img = (List.range (img.height / 2)).flatMap
      (fun r => (List.range img.width).flatMap (fun x => [(x, 2 * r), (x, 2 * r + 1)])) := by
  rcases Nat.eq_zero_or_pos img.width with hw | hw
  · unfold frameReads
    rw [hw, Nat.mul_zero]
    simp [displayCoords]
  · unfold frameReads
    rw [displayCoords_rows img.width hw (img.height / 2) 0, List.flatMap_assoc]
    congr 1
    funext r
    rw [List.flatMap_map]
    congr 1
    funext x
    simp

/-- Membership in the read set of `display_frame`. -/
theorem frameReads_mem (img : Image) (p : ℕ × ℕ) :
    p ∈ frameReads img
      ↔ ∃ r, r < img.height / 2 ∧ p.1 < img.width ∧ (p.2 = 2 * r ∨ p.2 = 2 * r + 1) := by
  rw [frameReads_eq]
  simp only [List.mem_flatMap, List.mem_range, List.mem_cons, List.mem_singleton,
    List.not_mem_nil, or_false]
  constructor
  · rintro ⟨r, hr, x, hx, hp | hp⟩ <;> subst hp <;> exact ⟨r, hr, hx, by simp⟩
  · rintro ⟨r, hr, hx, hp | hp⟩
    · exact ⟨r, hr, p.1, hx, Or.inl (by rw [← hp])⟩
    · exact ⟨r, hr, p.1, hx, Or.inr (by rw [← hp])⟩

/-- The read set of `display_frame` has no duplicate coordinate. -/
theorem frameReads_nodup (img : Image) : (frameReads img).Nodup := by
  rw [frameReads_eq]
  apply List.nodup_flatMap.2
  refine ⟨fun r _ => ?_, ?_⟩
  · apply List.nodup_flatMap.2
    refine ⟨fun x _ => by simp, ?_⟩
    refine List.Pairwise.imp ?_ (List.pairwise_lt_range img.width)
    intro a b hab q hq hq'
    simp only [List.mem_cons, List.mem_singleton, List.not_mem_nil, or_false] at hq hq'
    rcases hq with rfl | rfl <;> rcases hq' with h | h <;>
      exact absurd (congrArg Prod.fst h) (by simp; omega)
  · refine List.Pairwise.imp ?_ (List.pairwise_lt_range (img.height / 2))
    intro a b hab q hq hq'
    simp only [List.mem_flatMap, List.mem_range, List.mem_cons, List.mem_singleton,
      List.not_mem_nil, or_false] at hq hq'
    obtain ⟨x, _, hx⟩ := hq
    obtain ⟨x', _, hx'⟩ := hq'
    have h2 : q.2 = 2 * a ∨ q.2 = 2 * a + 1 := by
      rcases hx with rfl | rfl <;> simp
    have h2' : q.2 = 2 * b ∨ q.2 = 2 * b + 1 := by
      rcases hx' with rfl | rfl <;> simp
    omega

/-- C7: for a frame of even height, the cell loop of `display_frame`
emits exactly `width * height / 2` cells and the coordinates it reads
cover every pixel exactly once (no duplicates, and membership is
exactly `x < width ∧ y < height`); for every height the loop never
reads a coordinate outside the bitmap, and for odd height the final
row is never read (it is skipped rather than paired with an
out-of-range lower partner). -/
theorem c7_renderer_visits_each_pixel_once (img : Image) :
    (displayFrame (fun _ => none) img).2.length = img.height / 2 * img.width
    ∧ (Even img.height →
        (displayFrame (fun _ => none) img).2.length = img.width * img.height / 2
        ∧ (frameReads img).Nodup
        ∧ (∀ p : ℕ × ℕ, p ∈ frameReads img ↔ p.1 < img.width ∧ p.2 < img.height))
    ∧ (∀ p : ℕ × ℕ, p ∈ frameReads img → p.1 < img.width ∧ p.2 < img.height)
    ∧ (Odd img.height → ∀ x : ℕ, (x, img.height - 1) ∉ frameReads img) := by
  have hlen : (displayFrame (fun _ => none) img).2.length = img.height / 2 * img.width :=
    displayGo_length_noFail img _ 0 0 0
  refine ⟨hlen, fun heven => ⟨?_, frameReads_nodup img, fun p => ?_⟩, fun p hp => ?_, ?_⟩
  · rw [hlen]
    obtain ⟨t, ht⟩ := heven
    rw [ht]
    have h2 : (t + t) / 2 = t := by omega
    have h3 : img.width * (t + t) = img.width * t * 2 := by ring
    rw [h2, h3, Nat.mul_div_cancel _ (by norm_num), Nat.mul_comm]
  · rw [frameReads_mem]
    obtain ⟨t, ht⟩ := heven
    constructor
    · rintro ⟨r, hr, hx, hy⟩
      exact ⟨hx, by omega⟩
    · rintro ⟨hx, hy⟩
      exact ⟨p.2 / 2, by omega, hx, by omega⟩
  · rw [frameReads_mem] at hp
    obtain ⟨r, hr, hx, hy⟩ := hp
    exact ⟨hx, by omega⟩
  · intro hodd x hmem
    rw [frameReads_mem] at hmem
    obtain ⟨r, hr, _, hy⟩ := hmem
    obtain ⟨t, ht⟩ := hodd
    simp only at hy
    omega

/-- C7 witness: the theorem applied to the 2×2 frame `imgA` (even
height), whose renderer emits `2 * 2 / 2 = 2` cells with duplicate-free
reads. -/
theorem c7_renderer_visits_each_pixel_once_witness :
    (displayFrame (fun _ => none) imgA).2.length = imgA.width * imgA.height / 2
    ∧ (frameReads imgA).Nodup :=
  ⟨((c7_renderer_visits_each_pixel_once imgA).2.1 ⟨1, rfl⟩).1,
   ((c7_renderer_visits_each_pixel_once imgA).2.1 ⟨1, rfl⟩).2.1⟩

/-- If the first cancel key of a pass arrives after frame `s + c` (and
every frame displays successfully), the pass stops right there:
`Ok(false)` with exactly frames `s … s + c` displayed. -/
theorem playGo_cancel (disp : ℕ → Outcome Unit) (inputs : ℕ → Option KeyEv)
    (loopFlag : Bool) (delay : ℕ) (hdisp : ∀ j, disp j = Outcome.ok ()) :
    ∀ (c k s : ℕ), c < k →
      isCancelEv (inputs (s + c)) = true →
      (∀ j < c, isCancelEv (inputs (s + j)) = false) →
      playGo disp inputs loopFlag delay s k
        = (Outcome.ok false, (List.range (c + 1)).map (fun j => (s + j, delay))) := by
  intro c
  induction c with
  | zero =>
    intro k s hk hc hfirst
    obtain ⟨kp, rfl⟩ : ∃ kp, k = kp + 1 := ⟨k - 1, by omega⟩
    rw [playGo]
    rw [hdisp s]
    rw [show s + 0 = s from rfl] at hc
    simp only [hc, if_true]
    rw [show List.range 1 = [0] from rfl]
    simp
  | succ c ih =>
    intro k s hk hc hfirst
    obtain ⟨kp, rfl⟩ : ∃ kp, k = kp + 1 := ⟨k - 1, by omega⟩
    rw [playGo]
    rw [hdisp s]
    have h0 : isCancelEv (inputs s) = false := by
      have h00 := hfirst 0 (by omega)
      rwa [Nat.add_zero] at h00
    simp only [h0, if_false, Bool.false_eq_true]
    rw [ih kp (s + 1) (by omega)
      (by rw [show s + 1 + c = s + (c + 1) from by omega]; exact hc)
      (fun j hj => by rw [show s + 1 + j = s + (j + 1) from by omega]
                      exact hfirst (j + 1) (by omega))]
    dsimp only
    congr 1
    conv_rhs => rw [List.range_succ_eq_map, List.map_cons, List.map_map]
    have hfun : ((fun j => (s + j, delay)) ∘ Nat.succ) = (fun j : ℕ => (s + 1 + j, delay)) := by
      funext j
      simp only [Function.comp_apply]
      congr 1
      omega
    rw [hfun]
    simp

/-- A pass with no cancel key and no display failure shows every frame
and returns `Ok(loop_video)`. -/
theorem playGo_complete (disp : ℕ → Outcome Unit) (inputs : ℕ → Option KeyEv)
    (loopFlag : Bool) (delay : ℕ) (hdisp : ∀ j, disp j = Outcome.ok ()) :
    ∀ (k s : ℕ), (∀ j < k, isCancelEv (inputs (s + j)) = false) →
      playGo disp inputs loopFlag delay s k
        = (Outcome.ok loopFlag, (List.range k).map (fun j => (s + j, delay))) := by
  intro k
  induction k with
  | zero => intro s h; rfl
  | succ k ih =>
    intro s h
    rw [playGo]
    rw [hdisp s]
    have h0 : isCancelEv (inputs s) = false := by
      have h00 := h 0 (by omega)
      rwa [Nat.add_zero] at h00
    simp only [h0, if_false, Bool.false_eq_true]
    rw [ih (s + 1)
      (fun j hj => by rw [show s + 1 + j = s + (j + 1) from by omega]
                      exact h (j + 1) (by omega))]
    dsimp only
    congr 1
    conv_rhs => rw [List.range_succ_eq_map, List.map_cons, List.map_map]
    have hfun : ((fun j => (s + j, delay)) ∘ Nat.succ) = (fun j : ℕ => (s + 1 + j, delay)) := by
      funext j
      simp only [Function.comp_apply]
      congr 1
      omega
    rw [hfun]
    simp

/-- Once the first cancel key of the session arrives at frame `i` of
pass `s + p` (passes `s … s + p - 1` complete with no cancel and every
display succeeds), the pass loop of `render` terminates with `Ok`:
passes before the cancel are full, the cancelling pass stops after
frame `i`, and no later pass runs — whatever the loop flag is. -/
theorem videoLoop_cancel_stops (disp : ℕ → ℕ → Outcome Unit) (inputs : ℕ → ℕ → Option KeyEv)
    (loopFlag : Bool) (n delay : ℕ) (hdisp : ∀ q j, disp q j = Outcome.ok ()) :
    ∀ (p s fuel i : ℕ), p < fuel → i < n →
      isCancelEv (inputs (s + p) i) = true →
      (∀ j < i, isCancelEv (inputs (s + p) j) = false) →
      (∀ q < p, ∀ j < n, isCancelEv (inputs (s + q) j) = false) →
      (p = 0 ∨ loopFlag = true) →
      videoLoop disp inputs loopFlag n delay fuel s
        = (Outcome.ok (),
           ((List.range p).flatMap (fun q => (List.range n).map (fun j => (s + q, j, delay))))
             ++ (List.range (i + 1)).map (fun j => (s + p, j, delay))) := by
  intro p
  induction p with
  | zero =>
    intro s fuel i hfuel hi hc hfirst hearly hloop
    obtain ⟨fp, rfl⟩ : ∃ fp, fuel = fp + 1 := ⟨fuel - 1, by omega⟩
    rw [videoLoop]
    have hpv : playVideo (disp s) (inputs s) loopFlag n delay
        = (Outcome.ok false, (List.range (i + 1)).map (fun j => (j, delay))) := by
      unfold playVideo
      rw [playGo_cancel (disp s) (inputs s) loopFlag delay (hdisp s) i n 0 hi
        (by rw [Nat.zero_add]
            rw [Nat.add_zero] at hc
            exact hc)
        (fun j hj => by
          rw [Nat.zero_add]
          have h := hfirst j hj
          rwa [Nat.add_zero] at h)]
      congr 1
      exact List.map_congr_left (fun a _ => by rw [Nat.zero_add])
    rw [hpv]
    dsimp only
    unfold tagPass
    rw [List.map_map]
    rw [show List.range (0 : ℕ) = [] from rfl]
    rw [List.flatMap_nil, List.nil_append]
    congr 1
  | succ p ih =>
    intro s fuel i hfuel hi hc hfirst hearly hloop
    obtain ⟨fp, rfl⟩ : ∃ fp, fuel = fp + 1 := ⟨fuel - 1, by omega⟩
    have hlt : loopFlag = true := hloop.resolve_left (by omega)
    rw [videoLoop]
    have hpv : playVideo (disp s) (inputs s) loopFlag n delay
        = (Outcome.ok true, (List.range n).map (fun j => (j, delay))) := by
      unfold playVideo
      rw [playGo_complete (disp s) (inputs s) loopFlag delay (hdisp s) n 0
        (fun j hj => by
          rw [Nat.zero_add]
          have h := hearly 0 (by omega) j hj
          rwa [Nat.add_zero] at h)]
      rw [hlt]
      congr 1
      exact List.map_congr_left (fun a _ => by rw [Nat.zero_add])
    rw [hpv]
    dsimp only
    rw [ih (s + 1) fp i (by omega) hi
      (by rw [show s + 1 + p = s + (p + 1) from by omega]; exact hc)
      (fun j hj => by
        rw [show s + 1 + p = s + (p + 1) from by omega]
        exact hfirst j hj)
      (fun q hq j hj => by
        rw [show s + 1 + q = s + (q + 1) from by omega]
        exact hearly (q + 1) (by omega) j hj)
      (Or.inr hlt)]
    dsimp only
    unfold tagPass
    rw [List.map_map]
    conv_rhs => rw [List.range_succ_eq_map, List.flatMap_cons, List.flatMap_map]
    rw [List.append_assoc]
    refine congrArg (Prod.mk (Outcome.ok ()))
      (congrArg₂ (fun a b : List (ℕ × ℕ × ℕ) => a ++ b) ?_
       (congrArg₂ (fun a b : List (ℕ × ℕ × ℕ) => a ++ b) ?_ ?_))
    · exact List.map_congr_left (fun a _ => by
        simp only [Function.comp_apply]
        rw [Nat.add_zero])
    · congr 1
      funext q
      exact List.map_congr_left (fun a _ => by
        rw [show s + q.succ = s + 1 + q from by omega])
    · exact List.map_congr_left (fun a _ => by
        rw [show s + (p + 1) = s + 1 + p from by omega])

/-- C8: once the cancel signal (plain `q` or CONTROL-`c`) is observed
after frame `i` of pass `p` (every display succeeding, no earlier
cancel), `play_video` returns `Ok(false)` having displayed only frames
`0 … i` of that pass, and the surrounding pass loop of `render`
terminates at once: the loop-forever flag is disregarded (the statement
holds for `loopFlag = true`), no further frame of that pass or of any
later pass is rendered, and the session trace is exactly the earlier
full passes plus frames `0 … i` of pass `p`. -/
theorem c8_cancellation_stops_playback (disp : ℕ → ℕ → Outcome Unit)
    (inputs : ℕ → ℕ → Option KeyEv) (loopFlag : Bool) (n delay p i fuel : ℕ)
    (hdisp : ∀ q j, disp q j = Outcome.ok ())
    (hfuel : p < fuel) (hi : i < n)
    (hc : isCancelEv (inputs p i) = true)
    (hfirst : ∀ j < i, isCancelEv (inputs p j) = false)
    (hearly : ∀ q < p, ∀ j < n, isCancelEv (inputs q j) = false)
    (hloop : p = 0 ∨ loopFlag = true) :
    playVideo (disp p) (inputs p) loopFlag n delay
      = (Outcome.ok false, (List.range (i + 1)).map (fun j => (j, delay)))
    ∧ videoLoop disp inputs loopFlag n delay fuel 0
      = (Outcome.ok (),
         ((List.range p).flatMap (fun q => (List.range n).map (fun j => (q, j, delay))))
           ++ (List.range (i + 1)).map (fun j => (p, j, delay))) := by
  constructor
  · unfold playVideo
    rw [playGo_cancel (disp p) (inputs p) loopFlag delay (hdisp p) i n 0 hi
      (by rwa [Nat.zero_add]) (fun j hj => by rw [Nat.zero_add]; exact hfirst j hj)]
    refine congrArg (Prod.mk (Outcome.ok false)) ?_
    exact List.map_congr_left (fun a _ => by rw [Nat.zero_add])
  · rw [videoLoop_cancel_stops disp inputs loopFlag n delay hdisp p 0 fuel i hfuel hi
      (by rwa [Nat.zero_add]) (fun j hj => by rw [Nat.zero_add]; exact hfirst j hj)
      (fun q hq j hj => by rw [Nat.zero_add]; exact hearly q hq j hj) hloop]
    refine congrArg (Prod.mk (Outcome.ok ()))
      (congrArg₂ (fun a b : List (ℕ × ℕ × ℕ) => a ++ b) ?_ ?_)
    · congr 1
      funext q
      exact List.map_congr_left (fun a _ => by rw [Nat.zero_add])
    · exact List.map_congr_left (fun a _ => by rw [Nat.zero_add])

/-- C8 witness: two frames, loop flag on, fuel 3, a `q` keypress after
frame 0 of pass 1 — the loop stops with pass 0 complete and only frame
0 of pass 1 rendered. -/
theorem c8_cancellation_stops_playback_witness :
    videoLoop (fun _ _ => Outcome.ok ())
      (fun q j => if q = 1 ∧ j = 0 then some ⟨'q', false⟩ else none) true 2 7 3 0
      = (Outcome.ok (),
         ((List.range 1).flatMap (fun q => (List.range 2).map (fun j => (q, j, 7))))
           ++ (List.range 1).map (fun j => (1, j, 7))) :=
  (c8_cancellation_stops_playback (fun _ _ => Outcome.ok ())
    (fun q j => if q = 1 ∧ j = 0 then some ⟨'q', false⟩ else none) true 2 7 1 0 3
    (fun _ _ => rfl) (by decide) (by decide) (by decide) (by decide) (by decide)
    (Or.inr rfl)).2

end Png2t
